import Mathlib

/-!
Verification of the cumulative elasticity / cumulative gain computation from
`Prediction-Metrics-For-Causal-Models.ipynb`.

The notebook defines two functions:

```python
def elast(data, y, t):
    return (np.sum((data[t] - data[t].mean())*(data[y] - data[y].mean())) /
            np.sum((data[t] - data[t].mean())**2))

def cumulative_gain(dataset, prediction, y, t, min_periods=30, steps=100):
    size = dataset.shape[0]
    ordered_df = dataset.sort_values(prediction, ascending=False).reset_index(drop=True)
    n_rows = list(range(min_periods, size, size // steps)) + [size]
    return np.array([elast(ordered_df.head(rows), y, t) * (rows/size) for rows in n_rows])
```

We embed the dataset as a list of observations, each carrying the score
column (`prediction`), the outcome column (`y`) and the treatment column
(`t`), all as rational numbers.  Python's floor division `//` is `Int.fdiv`,
`range` is modelled by `pyRange` below, and `DataFrame.head` by `pdHead`
(including pandas' behaviour on negative arguments).  Division by zero in the
rational model yields `0` where the floating-point source yields `NaN`/`inf`;
whenever a claim turns on the zero-denominator case we track the denominator
explicitly (`elastDen`).  The two Python exceptions `cumulative_gain` can
raise — `ZeroDivisionError` from `size // steps` when `steps == 0`, and
`ValueError` from `range` when the stride `size // steps` is `0` — are
modelled by `Except` with the error type `PyError`.  `sort_values` with
`ascending=False` orders rows by descending score with implementation-defined
tie order; we model it as a stable insertion sort `sortByScoreDesc`.
-/

/-- One row of the dataset: ranking score `s` (the `prediction` column),
outcome `y` and treatment `t`. -/
structure Obs where
  s : ℚ
  y : ℚ
  t : ℚ
deriving Repr, DecidableEq, Inhabited

/-- Population mean of a column, `np.mean`: sum divided by length
(`0` for the empty column, where numpy would give `NaN`). -/
def mean (xs : List ℚ) : ℚ := xs.sum / (xs.length : ℚ)

/-- Numerator of `elast`: `np.sum((data[t] - data[t].mean())*(data[y] - data[y].mean()))`. -/
def elastNum (d : List Obs) : ℚ :=
  (d.map (fun o => (o.t - mean (d.map Obs.t)) * (o.y - mean (d.map Obs.y)))).sum

/-- Denominator of `elast`: `np.sum((data[t] - data[t].mean())**2)`. -/
def elastDen (d : List Obs) : ℚ :=
  (d.map (fun o => (o.t - mean (d.map Obs.t)) ^ 2)).sum

/-- The notebook's `elast(data, y, t)`: covariance/variance ratio of outcome
on treatment.  When the denominator is zero the rational model returns `0`
(the floating-point source returns `NaN`). -/
def elast (d : List Obs) : ℚ := elastNum d / elastDen d

/-- The descending-score order on observations used by
`sort_values(prediction, ascending=False)`. -/
def scoreGE (a b : Obs) : Prop := b.s ≤ a.s

instance : DecidableRel scoreGE := fun a b => inferInstanceAs (Decidable (b.s ≤ a.s))

instance : IsTotal Obs scoreGE := ⟨fun a b => le_total b.s a.s⟩

instance : IsTrans Obs scoreGE := ⟨fun _ _ _ h1 h2 => le_trans h2 h1⟩

/-- `dataset.sort_values(prediction, ascending=False)`: the rows reordered by
descending score.  Tie order is implementation-defined in the source; we use
a stable insertion sort. -/
def sortByScoreDesc (d : List Obs) : List Obs := d.insertionSort scoreGE

/-- Number of elements of Python's `range(start, stop, step)` (for `step ≠ 0`):
`⌈(stop - start) / step⌉` clamped at zero. -/
def pyRangeLen (start stop step : ℤ) : ℕ :=
  if 0 < step then ((stop - start + step - 1).fdiv step).toNat
  else if step < 0 then ((start - stop - step - 1).fdiv (-step)).toNat
  else 0

/-- Python's `range(start, stop, step)` as a list:
`[start, start + step, start + 2*step, ...]`. -/
def pyRange (start stop step : ℤ) : List ℤ :=
  (List.range (pyRangeLen start stop step)).map (fun (k : ℕ) => start + (k : ℤ) * step)

/-- The `n_rows` list of `cumulative_gain`:
`list(range(min_periods, size, stride)) + [size]`. -/
def nRowsList (min_periods size stride : ℤ) : List ℤ :=
  pyRange min_periods size stride ++ [size]

/-- `df.head(n)` for a pandas DataFrame: the first `n` rows for `n ≥ 0`, and
all rows but the last `|n|` for `n < 0` (pandas slices with `[:n]`). -/
def pdHead (d : List Obs) (n : ℤ) : List Obs :=
  if 0 ≤ n then d.take n.toNat else d.take (d.length - (-n).toNat)

/-- The two exceptions the `cumulative_gain` source can raise:
`ZeroDivisionError` from `size // steps` when `steps == 0`, and `ValueError`
from `range(..., 0)` when `size // steps == 0`. -/
inductive PyError where
  | zeroDivision
  | rangeZeroStep
deriving Repr, DecidableEq

/-- The notebook's `cumulative_gain(dataset, prediction, y, t, min_periods, steps)`.
`size = dataset.shape[0]`; the dataset is sorted by descending score; the
evaluated prefix lengths are `range(min_periods, size, size // steps)` with
`size` appended; each prefix contributes `elast(head) * (rows/size)`. -/
def cumulative_gain (dataset : List Obs) (min_periods steps : ℤ) :
    Except PyError (List ℚ) :=
  let size : ℤ := dataset.length
  let ordered := sortByScoreDesc dataset
  if steps = 0 then .error .zeroDivision
  else if size.fdiv steps = 0 then .error .rangeZeroStep
  else .ok ((nRowsList min_periods size (size.fdiv steps)).map
      (fun rows => elast (pdHead ordered rows) * ((rows : ℚ) / (size : ℚ))))

/-- The spec's description of the prefix-length generation, as an iterative
process: "start at `min_periods`, step by `stride`, stop before `size`"
(without the final appended `size`). -/
def upFrom (start stop stride : ℤ) : List ℤ :=
  if _h : 0 < stride ∧ start < stop then start :: upFrom (start + stride) stop stride
  else []
termination_by (stop - start).toNat
decreasing_by omega

theorem pyRangeLen_pos_def (start stop step : ℤ) (hs : 0 < step) :
    pyRangeLen start stop step = ((stop - start + step - 1) / step).toNat := by
  rw [pyRangeLen, if_pos hs, Int.fdiv_eq_ediv _ (le_of_lt hs)]

theorem pyRangeLen_eq_zero {start stop step : ℤ} (hs : 0 < step) (h : stop ≤ start) :
    pyRangeLen start stop step = 0 := by
  rw [pyRangeLen_pos_def _ _ _ hs]
  have h1 : (stop - start + step - 1) / step < 1 := by
    rw [Int.ediv_lt_iff_lt_mul hs]; omega
  omega

theorem pyRangeLen_pos {start stop step : ℤ} (hs : 0 < step) (h : start < stop) :
    0 < pyRangeLen start stop step := by
  rw [pyRangeLen_pos_def _ _ _ hs]
  have h1 : (1 : ℤ) ≤ (stop - start + step - 1) / step := by
    rw [Int.le_ediv_iff_mul_le hs]; omega
  omega

theorem pyRange_elem_lt {start stop step : ℤ} (hs : 0 < step) {k : ℕ}
    (hk : k < pyRangeLen start stop step) : start + (k : ℤ) * step < stop := by
  rw [pyRangeLen_pos_def _ _ _ hs] at hk
  have hk' : (k : ℤ) + 1 ≤ (stop - start + step - 1) / step := by omega
  rw [Int.le_ediv_iff_mul_le hs, add_one_mul] at hk'
  linarith

theorem pyRange_mem_lt {start stop step a : ℤ} (hs : 0 < step)
    (ha : a ∈ pyRange start stop step) : a < stop := by
  rw [pyRange, List.mem_map] at ha
  obtain ⟨k, hk, rfl⟩ := ha
  exact pyRange_elem_lt hs (List.mem_range.1 hk)

theorem pyRange_cons {start stop step : ℤ} (hs : 0 < step) (h : start < stop) :
    pyRange start stop step = start :: pyRange (start + step) stop step := by
  have hlen : pyRangeLen start stop step = pyRangeLen (start + step) stop step + 1 := by
    rw [pyRangeLen_pos_def _ _ _ hs, pyRangeLen_pos_def _ _ _ hs]
    have e : stop - start + step - 1 = (stop - (start + step) + step - 1) + 1 * step := by
      ring
    rw [e, Int.add_mul_ediv_right _ _ (ne_of_gt hs)]
    have h0 : 0 ≤ (stop - (start + step) + step - 1) / step :=
      Int.ediv_nonneg (by omega) (le_of_lt hs)
    omega
  rw [pyRange, pyRange, hlen, List.range_succ_eq_map]
  simp only [List.map_cons, List.map_map, Nat.cast_zero, zero_mul, add_zero]
  refine congrArg _ (List.map_congr_left fun k _ => ?_)
  simp only [Function.comp_apply]
  push_cast
  ring

theorem pyRange_nil {start stop step : ℤ} (hs : 0 < step) (h : stop ≤ start) :
    pyRange start stop step = [] := by
  rw [pyRange, pyRangeLen_eq_zero hs h]
  rfl

/-- The closed-form `range(start, stop, step)` list coincides with the spec's
iterative "start, keep stepping while below stop" description. -/
theorem pyRange_eq_upFrom (start stop stride : ℤ) (hs : 0 < stride) :
    pyRange start stop stride = upFrom start stop stride := by
  by_cases h : start < stop
  · rw [pyRange_cons hs h, upFrom, dif_pos ⟨hs, h⟩]
    exact congrArg _ (pyRange_eq_upFrom (start + stride) stop stride hs)
  · rw [pyRange_nil hs (not_lt.1 h), upFrom, dif_neg (by tauto)]
termination_by (stop - start).toNat
decreasing_by omega

theorem pyRange_nodup {start stop step : ℤ} (hs : 0 < step) :
    (pyRange start stop step).Nodup := by
  refine List.Nodup.map ?_ (List.nodup_range _)
  intro a b hab
  simp only [add_right_inj] at hab
  exact_mod_cast mul_right_cancel₀ (ne_of_gt hs) hab

theorem nRowsList_nodup {mp size stride : ℤ} (hs : 0 < stride) :
    (nRowsList mp size stride).Nodup := by
  rw [nRowsList]
  refine List.Nodup.append (pyRange_nodup hs) (List.nodup_singleton _) ?_
  intro a ha hb
  rw [List.mem_singleton] at hb
  subst hb
  exact absurd (pyRange_mem_lt hs ha) (lt_irrefl _)

theorem nRowsList_getLast? (mp size stride : ℤ) :
    (nRowsList mp size stride).getLast? = some size := by
  rw [nRowsList, List.getLast?_concat]

theorem sortByScoreDesc_perm (d : List Obs) : (sortByScoreDesc d).Perm d :=
  List.perm_insertionSort scoreGE d

theorem sortByScoreDesc_sorted (d : List Obs) : List.Sorted scoreGE (sortByScoreDesc d) :=
  List.sorted_insertionSort scoreGE d

theorem sortByScoreDesc_length (d : List Obs) : (sortByScoreDesc d).length = d.length :=
  List.length_insertionSort scoreGE d

theorem sum_map_eq_sum_range (f : Obs → ℚ) :
    ∀ d : List Obs, (d.map f).sum = ∑ i ∈ Finset.range d.length, f (d.getD i default)
  | [] => by simp
  | o :: tl => by
    rw [List.map_cons, List.sum_cons, sum_map_eq_sum_range f tl, List.length_cons,
      Finset.sum_range_succ']
    simp [add_comm]

/-- The spec's formula for the elasticity estimator, written indexwise:
`Σ (t_i - mean(t)) * (y_i - mean(y)) / Σ (t_i - mean(t))^2` with population
means `mean(t) = (Σ t_i)/n` and `mean(y) = (Σ y_i)/n`. -/
def specElasticity (d : List Obs) : ℚ :=
  (∑ i ∈ Finset.range d.length,
      ((d.getD i default).t - (∑ j ∈ Finset.range d.length, (d.getD j default).t) / (d.length : ℚ)) *
        ((d.getD i default).y - (∑ j ∈ Finset.range d.length, (d.getD j default).y) / (d.length : ℚ))) /
    ∑ i ∈ Finset.range d.length,
      ((d.getD i default).t - (∑ j ∈ Finset.range d.length, (d.getD j default).t) / (d.length : ℚ)) ^ 2

theorem mean_map_eq (f : Obs → ℚ) (d : List Obs) :
    mean (d.map f) = (∑ i ∈ Finset.range d.length, f (d.getD i default)) / (d.length : ℚ) := by
  rw [mean, sum_map_eq_sum_range, List.length_map]

theorem elast_eq_specElasticity (d : List Obs) : elast d = specElasticity d := by
  rw [elast, elastNum, elastDen, specElasticity, sum_map_eq_sum_range, sum_map_eq_sum_range,
    mean_map_eq, mean_map_eq]

/-- The noiseless 10-row dataset of the spec's concrete scenario:
`t = 1..10`, `y = 2*t`, and an arbitrary score column. -/
def dataset10 (score : ℕ → ℚ) : List Obs :=
  (List.range 10).map (fun (i : ℕ) => ⟨score i, 2 * ((i : ℚ) + 1), (i : ℚ) + 1⟩)

/-- C2: for every non-empty sequence of observations with at least two
distinct treatment values, `elast` returns exactly
`Σ (t_i - mean(t)) * (y_i - mean(y)) / Σ (t_i - mean(t))^2` with population
means of the treatment and outcome columns. -/
theorem elast_matches_covariance_formula (d : List Obs) (_hne : d ≠ [])
    (_hdist : ∃ a ∈ d, ∃ b ∈ d, a.t ≠ b.t) : elast d = specElasticity d :=
  elast_eq_specElasticity d

theorem elast_matches_covariance_formula_witness :
    (([⟨0, 0, 0⟩, ⟨0, 1, 1⟩] : List Obs) ≠ [] ∧
      ∃ a ∈ ([⟨0, 0, 0⟩, ⟨0, 1, 1⟩] : List Obs),
        ∃ b ∈ ([⟨0, 0, 0⟩, ⟨0, 1, 1⟩] : List Obs), a.t ≠ b.t) ∧
    elast [⟨0, 0, 0⟩, ⟨0, 1, 1⟩] = specElasticity [⟨0, 0, 0⟩, ⟨0, 1, 1⟩] :=
  ⟨⟨by decide, by decide⟩,
    elast_matches_covariance_formula [⟨0, 0, 0⟩, ⟨0, 1, 1⟩] (by decide) (by decide)⟩

/-- C9: `cumulative_gain` is a pure function of its inputs — two calls on
identical, unmodified inputs return identical output sequences. -/
theorem cumulative_gain_deterministic (d₁ d₂ : List Obs) (mp₁ mp₂ steps₁ steps₂ : ℤ)
    (hd : d₁ = d₂) (hmp : mp₁ = mp₂) (hsteps : steps₁ = steps₂) :
    cumulative_gain d₁ mp₁ steps₁ = cumulative_gain d₂ mp₂ steps₂ := by
  rw [hd, hmp, hsteps]

theorem cumulative_gain_deterministic_witness :
    (([⟨1, 2, 1⟩, ⟨0, 4, 2⟩] : List Obs) = [⟨1, 2, 1⟩, ⟨0, 4, 2⟩] ∧ (3 : ℤ) = 3 ∧ (2 : ℤ) = 2) ∧
    cumulative_gain [⟨1, 2, 1⟩, ⟨0, 4, 2⟩] 3 2 = cumulative_gain [⟨1, 2, 1⟩, ⟨0, 4, 2⟩] 3 2 :=
  ⟨⟨rfl, rfl, rfl⟩,
    cumulative_gain_deterministic [⟨1, 2, 1⟩, ⟨0, 4, 2⟩] [⟨1, 2, 1⟩, ⟨0, 4, 2⟩] 3 3 2 2
      rfl rfl rfl⟩

/-- C10: on the 10-row dataset with `t = 1..10` and noiseless outcome
`y = 2*t`, `elast` over the full dataset returns exactly `2`, for any score
column. -/
theorem elast_dataset10_eq_two (score : ℕ → ℚ) : elast (dataset10 score) = 2 := by
  have h : List.range 10 = [0, 1, 2, 3, 4, 5, 6, 7, 8, 9] := rfl
  rw [dataset10, h]
  norm_num [elast, elastNum, elastDen, mean]
/-- When `steps` is nonzero and the stride `size // steps` is nonzero,
`cumulative_gain` reaches the list comprehension and returns its value. -/
theorem cumulative_gain_ok (d : List Obs) (mp steps : ℤ)
    (h1 : steps ≠ 0) (h2 : (d.length : ℤ).fdiv steps ≠ 0) :
    cumulative_gain d mp steps =
      .ok ((nRowsList mp d.length ((d.length : ℤ).fdiv steps)).map
        (fun rows => elast (pdHead (sortByScoreDesc d) rows) *
          ((rows : ℚ) / ((d.length : ℤ) : ℚ)))) := by
  simp [cumulative_gain, h1, h2]

/-- C7: for every non-empty dataset strictly smaller than `steps` (so that
`size // steps == 0`), `cumulative_gain` fails with the range-step-of-zero
error instead of returning a curve; in particular, with the default
`steps = 100` every non-empty dataset of fewer than 100 rows is rejected. -/
theorem cumulative_gain_small_dataset_rejected (d : List Obs) (mp steps : ℤ)
    (_hne : d ≠ []) (hsteps : 0 < steps) (hlt : (d.length : ℤ) < steps) :
    cumulative_gain d mp steps = .error .rangeZeroStep := by
  have hs0 : ¬ steps = 0 := by omega
  have h2 : (d.length : ℤ).fdiv steps = 0 := by
    rw [Int.fdiv_eq_ediv _ (by omega)]
    exact Int.ediv_eq_zero_of_lt (Int.natCast_nonneg _) hlt
  simp [cumulative_gain, hs0, h2]

theorem cumulative_gain_small_dataset_rejected_witness :
    (([⟨0, 0, 0⟩] : List Obs) ≠ [] ∧ (0 : ℤ) < 100 ∧
      ((([⟨0, 0, 0⟩] : List Obs).length : ℤ) < 100)) ∧
    cumulative_gain [⟨0, 0, 0⟩] 30 100 = .error .rangeZeroStep :=
  ⟨⟨by decide, by decide, by decide⟩,
    cumulative_gain_small_dataset_rejected [⟨0, 0, 0⟩] 30 100 (by decide) (by decide)
      (by decide)⟩

/-- C4 counterexample: on a concrete dataset where every treatment value
equals `5`, `elast` does not signal any error: the denominator is zero and
the division silently yields a junk value (`NaN` in the floating-point
source, `0` under the rational model's division-by-zero convention). -/
theorem elast_degenerate_counterexample :
    elastDen [⟨0, 1, 5⟩, ⟨0, 2, 5⟩] = 0 ∧ elast [⟨0, 1, 5⟩, ⟨0, 2, 5⟩] = 0 := by
  norm_num [elast, elastNum, elastDen, mean]

/-- C4 amended: when all treatment values of a non-empty dataset are
identical, the elasticity denominator is zero and `elast` silently returns
the undefined result of dividing by zero (`NaN` in the source, `0` in the
rational model) instead of raising a `DegenerateTreatmentError`. -/
theorem elast_degenerate_returns_junk (d : List Obs) (c : ℚ) (hne : d ≠ [])
    (ht : ∀ o ∈ d, o.t = c) : elastDen d = 0 ∧ elast d = 0 := by
  have hm : d.map Obs.t = List.replicate d.length c := by
    rw [List.eq_replicate_iff]
    refine ⟨by simp, ?_⟩
    intro b hb
    obtain ⟨o, ho, rfl⟩ := List.mem_map.1 hb
    exact ht o ho
  have hlen : ((d.length : ℕ) : ℚ) ≠ 0 := by
    have : d.length ≠ 0 := fun h => hne (List.length_eq_zero.1 h)
    exact_mod_cast this
  have hmean : mean (d.map Obs.t) = c := by
    rw [mean, List.length_map, hm, List.sum_replicate, nsmul_eq_mul, mul_comm,
      mul_div_assoc, div_self hlen, mul_one]
  have hden : elastDen d = 0 := by
    rw [elastDen]
    apply List.sum_eq_zero
    intro x hx
    obtain ⟨o, ho, rfl⟩ := List.mem_map.1 hx
    rw [hmean, ht o ho, sub_self]
    ring
  exact ⟨hden, by rw [elast, hden, div_zero]⟩

theorem elast_degenerate_returns_junk_witness :
    (([⟨1, 3, 7⟩, ⟨2, 4, 7⟩] : List Obs) ≠ [] ∧
      ∀ o ∈ ([⟨1, 3, 7⟩, ⟨2, 4, 7⟩] : List Obs), o.t = 7) ∧
    (elastDen [⟨1, 3, 7⟩, ⟨2, 4, 7⟩] = 0 ∧ elast [⟨1, 3, 7⟩, ⟨2, 4, 7⟩] = 0) :=
  ⟨⟨by decide, by decide⟩,
    elast_degenerate_returns_junk [⟨1, 3, 7⟩, ⟨2, 4, 7⟩] 7 (by decide) (by decide)⟩

/-- C6 counterexample: on the empty dataset with the default configuration,
`cumulative_gain` fails with the same generic range-step-of-zero error it
produces for a non-empty dataset smaller than `steps`; the code has no
dedicated empty-dataset error. -/
theorem cumulative_gain_empty_counterexample :
    cumulative_gain [] 30 100 = .error .rangeZeroStep ∧
    cumulative_gain [⟨0, 0, 0⟩] 30 100 = .error .rangeZeroStep :=
  ⟨rfl, rfl⟩

/-- C6 amended: `cumulative_gain` fails on every zero-row dataset, but with
the `ZeroDivisionError` when `steps = 0` and otherwise with the generic
range-step-of-zero `ValueError` (because `0 // steps == 0`), never with a
dedicated `EmptyDatasetError`. -/
theorem cumulative_gain_empty_fails (mp steps : ℤ) :
    cumulative_gain [] mp steps =
      .error (if steps = 0 then .zeroDivision else .rangeZeroStep) := by
  by_cases h : steps = 0
  · simp [cumulative_gain, h]
  · simp [cumulative_gain, h]

/-- C5 counterexample: with `min_periods = 5` strictly greater than the
dataset size `2` (and `steps = 1`, a nonzero stride), `cumulative_gain`
raises no error at all — it returns a one-point curve. -/
theorem cumulative_gain_no_validation_counterexample :
    cumulative_gain [⟨1, 2, 1⟩, ⟨0, 4, 2⟩] 5 1 = .ok [2] := by
  rw [cumulative_gain_ok _ _ _ (by decide) (by decide)]
  have h : nRowsList 5 ([⟨1, 2, 1⟩, ⟨0, 4, 2⟩] : List Obs).length
      ((([⟨1, 2, 1⟩, ⟨0, 4, 2⟩] : List Obs).length : ℤ).fdiv 1) = [2] := by decide
  rw [h]
  simp [sortByScoreDesc, List.insertionSort, List.orderedInsert, scoreGE, pdHead]
  norm_num [elast, elastNum, elastDen, mean]

/-- C5 amended: `cumulative_gain` performs no configuration validation:
`steps = 0` fails with `ZeroDivisionError`, a zero stride
(`size // steps == 0`) fails with the range `ValueError`, and whenever the
stride is nonzero the function returns a curve — even when
`min_periods ≤ 0` or `min_periods >` dataset size — instead of raising an
`InvalidConfiguration` error. -/
theorem cumulative_gain_no_validation (d : List Obs) (mp steps : ℤ) :
    cumulative_gain d mp 0 = .error .zeroDivision ∧
    (steps ≠ 0 → (d.length : ℤ).fdiv steps = 0 →
      cumulative_gain d mp steps = .error .rangeZeroStep) ∧
    (steps ≠ 0 → (d.length : ℤ).fdiv steps ≠ 0 →
      ∃ out, cumulative_gain d mp steps = .ok out) :=
  ⟨by simp [cumulative_gain],
    fun h1 h2 => by simp [cumulative_gain, h1, h2],
    fun h1 h2 => ⟨_, cumulative_gain_ok d mp steps h1 h2⟩⟩

theorem cumulative_gain_no_validation_witness :
    cumulative_gain [⟨1, 2, 1⟩] 0 0 = .error .zeroDivision ∧
    cumulative_gain [⟨1, 2, 1⟩] 0 2 = .error .rangeZeroStep ∧
    ∃ out, cumulative_gain [⟨1, 2, 1⟩] 0 1 = .ok out :=
  ⟨(cumulative_gain_no_validation [⟨1, 2, 1⟩] 0 0).1,
    (cumulative_gain_no_validation [⟨1, 2, 1⟩] 0 2).2.1 (by decide) (by decide),
    (cumulative_gain_no_validation [⟨1, 2, 1⟩] 0 1).2.2 (by decide) (by decide)⟩

/-- C8 counterexample: the claimed duplication never happens — there is no
configuration with stride `size // steps ≥ 1` for which the prefix-length
sequence contains a duplicated entry, because every range-generated prefix
is strictly below `size` and `size` is appended exactly once. -/
theorem nRowsList_no_duplicate_counterexample :
    ¬ ∃ (mp size steps : ℤ), 1 ≤ size.fdiv steps ∧
        ¬ (nRowsList mp size (size.fdiv steps)).Nodup := by
  rintro ⟨mp, size, steps, h1, h2⟩
  exact h2 (nRowsList_nodup (by omega))

/-- C8 amended: for every configuration with stride `size // steps ≥ 1`,
the prefix-length sequence built by `cumulative_gain` contains no duplicated
prefix length: the range part stays strictly below `size`, so the appended
final `size` never repeats an earlier entry. -/
theorem nRowsList_no_duplicates (mp size steps : ℤ) (h : 1 ≤ size.fdiv steps) :
    (nRowsList mp size (size.fdiv steps)).Nodup ∧
    ∀ a ∈ pyRange mp size (size.fdiv steps), a < size :=
  ⟨nRowsList_nodup (by omega), fun _ ha => pyRange_mem_lt (by omega) ha⟩

theorem nRowsList_no_duplicates_witness :
    (1 : ℤ) ≤ (10 : ℤ).fdiv 3 ∧
    ((nRowsList 3 10 ((10 : ℤ).fdiv 3)).Nodup ∧
      ∀ a ∈ pyRange 3 10 ((10 : ℤ).fdiv 3), a < 10) :=
  ⟨by decide, nRowsList_no_duplicates 3 10 3 (by decide)⟩

theorem nRowsList_mem_nonneg {mp size stride a : ℤ} (hmp : 0 ≤ mp) (hsize : 0 ≤ size)
    (hstride : 0 ≤ stride) (ha : a ∈ nRowsList mp size stride) : 0 ≤ a := by
  rw [nRowsList, List.mem_append] at ha
  rcases ha with h | h
  · rw [pyRange, List.mem_map] at h
    obtain ⟨k, _, rfl⟩ := h
    have hk : (0 : ℤ) ≤ (k : ℤ) := Int.natCast_nonneg _
    nlinarith
  · rw [List.mem_singleton] at h
    omega

theorem size_pos_of_stride_pos {size steps : ℤ} (hsteps : 1 ≤ steps)
    (hstride : 1 ≤ size.fdiv steps) : 1 ≤ size := by
  rw [Int.fdiv_eq_ediv _ (by omega)] at hstride
  rw [Int.le_ediv_iff_mul_le (by omega)] at hstride
  omega

/-- C3: with `min_periods < size` and stride `size // steps ≥ 1`, the
prefix-length sequence evaluated by `cumulative_gain` is exactly the
iterative sequence `min_periods, min_periods + stride, min_periods +
2*stride, ...` stopping before `size`, with `size` appended as the final
element (so it starts at `min_periods` and ends at `size`); in particular
for `min_periods = 3`, `steps = 2`, `size = 10`, the prefix lengths are
`[3, 8, 10]` and `cumulative_gain` on any 10-row dataset yields exactly
three output points. -/
theorem prefix_length_sequence_spec (mp size steps : ℤ) (hmp : mp < size)
    (hstride : 1 ≤ size.fdiv steps) :
    nRowsList mp size (size.fdiv steps) = upFrom mp size (size.fdiv steps) ++ [size] ∧
    (nRowsList mp size (size.fdiv steps)).head? = some mp ∧
    (nRowsList mp size (size.fdiv steps)).getLast? = some size ∧
    nRowsList 3 10 ((10 : ℤ).fdiv 2) = [3, 8, 10] ∧
    ∀ d : List Obs, d.length = 10 →
      ∃ out, cumulative_gain d 3 2 = .ok out ∧ out.length = 3 := by
  refine ⟨?_, ?_, nRowsList_getLast? _ _ _, by decide, ?_⟩
  · rw [nRowsList, pyRange_eq_upFrom _ _ _ (by omega)]
  · rw [nRowsList, pyRange_cons (by omega) hmp]
    rfl
  · intro d hd
    refine ⟨_, cumulative_gain_ok d 3 2 (by omega) (by rw [hd]; decide), ?_⟩
    rw [List.length_map, hd]
    decide

theorem prefix_length_sequence_spec_witness :
    ((3 : ℤ) < 10 ∧ (1 : ℤ) ≤ (10 : ℤ).fdiv 2) ∧
    (nRowsList 3 10 ((10 : ℤ).fdiv 2) = upFrom 3 10 ((10 : ℤ).fdiv 2) ++ [10] ∧
      (nRowsList 3 10 ((10 : ℤ).fdiv 2)).head? = some 3 ∧
      (nRowsList 3 10 ((10 : ℤ).fdiv 2)).getLast? = some 10 ∧
      nRowsList 3 10 ((10 : ℤ).fdiv 2) = [3, 8, 10] ∧
      ∀ d : List Obs, d.length = 10 →
        ∃ out, cumulative_gain d 3 2 = .ok out ∧ out.length = 3) :=
  ⟨⟨by decide, by decide⟩, prefix_length_sequence_spec 3 10 2 (by decide) (by decide)⟩

/-- C1: whenever the configuration yields a prefix-length sequence
(`min_periods ≥ 1`, `steps ≥ 1`, stride `size // steps ≥ 1`),
`cumulative_gain` sorts the dataset by the score field in descending order
(the sorted list is a permutation of the input, pairwise non-increasing in
score), the output has one value per prefix length, the `i`-th output value
equals `elast` of the first `kᵢ` sorted rows multiplied by `kᵢ / size`, and
the last output value equals `elast` of the full sorted dataset scaled by
coverage fraction `1`. -/
theorem cumulative_gain_curve_spec (d : List Obs) (mp steps : ℤ)
    (hmp : 1 ≤ mp) (hsteps : 1 ≤ steps)
    (hstride : 1 ≤ (d.length : ℤ).fdiv steps) :
    ∃ out : List ℚ,
      cumulative_gain d mp steps = .ok out ∧
      (sortByScoreDesc d).Perm d ∧
      List.Sorted scoreGE (sortByScoreDesc d) ∧
      out.length = (nRowsList mp d.length ((d.length : ℤ).fdiv steps)).length ∧
      (∀ i : ℕ, i < out.length →
        out.getD i 0 =
          elast ((sortByScoreDesc d).take
              ((nRowsList mp d.length ((d.length : ℤ).fdiv steps)).getD i 0).toNat) *
            ((((nRowsList mp d.length ((d.length : ℤ).fdiv steps)).getD i 0 : ℤ) : ℚ) /
              ((d.length : ℤ) : ℚ))) ∧
      out.getLast? = some (elast (sortByScoreDesc d) * 1) := by
  have hs0 : steps ≠ 0 := by omega
  have hst0 : (d.length : ℤ).fdiv steps ≠ 0 := by omega
  have hsize : 1 ≤ (d.length : ℤ) := size_pos_of_stride_pos hsteps hstride
  have hsizeQ : ((d.length : ℤ) : ℚ) ≠ 0 := by
    have : (d.length : ℤ) ≠ 0 := by omega
    exact_mod_cast this
  refine ⟨_, cumulative_gain_ok d mp steps hs0 hst0, sortByScoreDesc_perm d,
    sortByScoreDesc_sorted d, List.length_map _ _, ?_, ?_⟩
  · intro i hi
    rw [List.length_map] at hi
    rw [List.getD_eq_getElem _ _ (by simpa using hi), List.getElem_map,
      List.getD_eq_getElem _ _ hi]
    have hmem : (nRowsList mp d.length ((d.length : ℤ).fdiv steps)).get ⟨i, hi⟩ ∈
        nRowsList mp d.length ((d.length : ℤ).fdiv steps) := List.get_mem _ _ hi
    have hnn : 0 ≤ (nRowsList mp d.length ((d.length : ℤ).fdiv steps)).get ⟨i, hi⟩ :=
      nRowsList_mem_nonneg (by omega) (by omega) (by omega) hmem
    simp only [List.get_eq_getElem] at hnn ⊢
    rw [pdHead, if_pos hnn]
  · rw [nRowsList, List.map_append, List.map_singleton, List.getLast?_concat]
    have htake : pdHead (sortByScoreDesc d) (d.length : ℤ) = sortByScoreDesc d := by
      rw [pdHead, if_pos (by omega), Int.toNat_natCast, ← sortByScoreDesc_length d,
        List.take_length]
    rw [htake, div_self hsizeQ]

theorem cumulative_gain_curve_spec_witness :
    ((1 : ℤ) ≤ 1 ∧ (1 : ℤ) ≤ 1 ∧
      (1 : ℤ) ≤ ((([⟨1, 2, 1⟩, ⟨0, 4, 2⟩] : List Obs).length : ℤ).fdiv 1)) ∧
    ∃ out : List ℚ,
      cumulative_gain [⟨1, 2, 1⟩, ⟨0, 4, 2⟩] 1 1 = .ok out ∧
      (sortByScoreDesc [⟨1, 2, 1⟩, ⟨0, 4, 2⟩]).Perm [⟨1, 2, 1⟩, ⟨0, 4, 2⟩] ∧
      List.Sorted scoreGE (sortByScoreDesc [⟨1, 2, 1⟩, ⟨0, 4, 2⟩]) ∧
      out.length = (nRowsList 1 ([⟨1, 2, 1⟩, ⟨0, 4, 2⟩] : List Obs).length
        ((([⟨1, 2, 1⟩, ⟨0, 4, 2⟩] : List Obs).length : ℤ).fdiv 1)).length ∧
      (∀ i : ℕ, i < out.length →
        out.getD i 0 =
          elast ((sortByScoreDesc [⟨1, 2, 1⟩, ⟨0, 4, 2⟩]).take
              ((nRowsList 1 ([⟨1, 2, 1⟩, ⟨0, 4, 2⟩] : List Obs).length
                ((([⟨1, 2, 1⟩, ⟨0, 4, 2⟩] : List Obs).length : ℤ).fdiv 1)).getD i 0).toNat) *
            ((((nRowsList 1 ([⟨1, 2, 1⟩, ⟨0, 4, 2⟩] : List Obs).length
                ((([⟨1, 2, 1⟩, ⟨0, 4, 2⟩] : List Obs).length : ℤ).fdiv 1)).getD i 0 : ℤ) : ℚ) /
              ((([⟨1, 2, 1⟩, ⟨0, 4, 2⟩] : List Obs).length : ℤ) : ℚ))) ∧
      out.getLast? = some (elast (sortByScoreDesc [⟨1, 2, 1⟩, ⟨0, 4, 2⟩]) * 1) :=
  ⟨⟨by decide, by decide, by decide⟩,
    cumulative_gain_curve_spec [⟨1, 2, 1⟩, ⟨0, 4, 2⟩] 1 1 (by decide) (by decide) (by decide)⟩
